import Mathlib

/-!
# Verification of the AIStore cluster-membership / metadata core

Shallow embedding of the parts of the repository that the checked claims
concern, together with theorems settling each claim.

Go strings are embedded as `List Char` wherever we reason about their
character structure, and as `String` where they are only carried around.
Go `int64` values are embedded as `Int` (with the explicit 64-bit range
check where the source performs one, namely `strconv.ParseInt`).
-/

set_option autoImplicit false

namespace AIStore

/-! ## dbdriver (src/unnamed/part_003): key-path encoding

Embeds `makePath` and `parsePath` from the BuntDB driver.  `collectionSepa`
is the two-character separator `"##"`. -/

/-- The separator `collectionSepa = "##"` as a character list. -/
def sepa : List Char := ['#', '#']

/-- `strings.Index(path, "##")`: index of the first occurrence of the
two-character separator, `none` when absent (Go returns `-1`). -/
def indexOfSepa : List Char → Option Nat
  | [] => none
  | [_] => none
  | c :: d :: rest =>
    if c = '#' ∧ d = '#' then some 0
    else (indexOfSepa (d :: rest)).map (· + 1)

/-- `makePath` from the BuntDB driver: if the collection already ends with
`"##"` (`strings.HasSuffix`), concatenate directly, otherwise insert the
separator. -/
def makePath (collection key : List Char) : List Char :=
  if sepa.isSuffixOf collection then collection ++ key
  else collection ++ sepa ++ key

/-- `parsePath` from the BuntDB driver: split at the first `"##"`; when the
separator is absent the whole path is the collection and the key is empty. -/
def parsePath (path : List Char) : List Char × List Char :=
  match indexOfSepa path with
  | none => (path, [])
  | some pos => (path.take pos, path.drop (pos + 2))

/-! ## ais target list-range (src/ais/multiproxy_test.go companion file):
`parseRange` and the part of `strconv.ParseInt` it relies on. -/

/-- `strings.Split(s, ":")` restricted to a one-character separator:
always returns at least one group; `Split("", sep) = [""]`. -/
def splitOnChar (sep : Char) : List Char → List (List Char)
  | [] => [[]]
  | c :: rest =>
    match splitOnChar sep rest with
    | [] => [[]]
    | g :: gs => if c = sep then [] :: g :: gs else (c :: g) :: gs

/-- Decimal value of a digit list (accumulator form, as `ParseInt` scans). -/
def digitsVal (l : List Char) : Nat :=
  l.foldl (fun a c => a * 10 + (c.toNat - 48)) 0

/-- Core of `strconv.ParseInt(s, 10, 64)` after the optional sign: requires
a non-empty all-digit tail and a value within the signed 64-bit range;
any violation is a parse error (`none`). -/
def parseIntCore (sign : Int) (digits : List Char) : Option Int :=
  if digits = [] then none
  else if digits.all Char.isDigit then
    let v : Int := sign * digitsVal digits
    if -(2 ^ 63) ≤ v ∧ v ≤ 2 ^ 63 - 1 then some v else none
  else none

/-- `strconv.ParseInt(s, 10, 64)`: optional leading `+`/`-` sign followed by
decimal digits. -/
def parseInt64 : List Char → Option Int
  | '+' :: rest => parseIntCore 1 rest
  | '-' :: rest => parseIntCore (-1) rest
  | l => parseIntCore 1 l

/-- Outcome of running Go's `parseRange`: `indexError` is the runtime
out-of-range slice access (Go panic), `parseErr` a returned `err`,
`ok mn mx` a normal return. -/
inductive RangeResult where
  | indexError : RangeResult
  | parseErr : RangeResult
  | ok : Int → Int → RangeResult
  deriving DecidableEq

/-- `parseRange` from the list-range target code: on a non-empty string it
splits on `":"`, parses `ranges[0]` as the min (empty means 0; a parse
error returns early), then accesses `ranges[1]` — which panics when the
string contains no `':'` — and parses it as the max (empty means 0). -/
def parseRange (rangestr : List Char) : RangeResult :=
  if rangestr = [] then .ok 0 0
  else
    match splitOnChar ':' rangestr with
    | [] => .indexError
    | r0 :: rest =>
      match (if r0 = [] then some 0 else parseInt64 r0) with
      | none => .parseErr
      | some mn =>
        match rest with
        | [] => .indexError
        | r1 :: _ =>
          if r1 = [] then .ok mn 0
          else
            match parseInt64 r1 with
            | none => .parseErr
            | some mx => .ok mn mx

/-! ## fs/vmd.go: volume metadata load and persist -/

/-- One persisted VMD copy as `LoadVMD` sees it after `jsp.Load`:
the formatting `Version`, the owning daemon's ID, and the content checksum
computed by the load (`vmd.cksum`). -/
structure VMDData where
  version : Nat
  daemonID : String
  cksum : Nat
  deriving DecidableEq

/-- What a mountpath holds for `LoadVMD`: no file at all (`os.IsNotExist`),
a file `jsp.Load` rejects (I/O or checksum failure), or a decoded copy. -/
inductive MpathContent where
  | absent : MpathContent
  | corrupt : MpathContent
  | vmd : VMDData → MpathContent
  deriving DecidableEq

/-- The three error constructors of `LoadVMD`: `newVMDLoadErr`,
`newVMDValidationErr`, `newVMDMismatchErr`. -/
inductive VMDError where
  | loadErr : VMDError
  | validationErr : VMDError
  | mismatchErr : VMDError
  deriving DecidableEq

/-- `vmdInitialVersion` from fs/vmd.go. -/
def vmdInitialVersion : Nat := 1

/-- `VMD.Validate`: the version must equal `vmdInitialVersion`.  (The two
`cmn.Assert` calls — non-nil checksum and non-empty daemon ID — are process
aborts, not returned errors, and always hold for a decoded copy.) -/
def vmdValidate (v : VMDData) : Bool :=
  v.version == vmdInitialVersion

/-- The loop body of `LoadVMD` with `mainVMD` as the accumulator: skip
absent copies, fail on a copy `jsp.Load` rejects, validate each decoded
copy, and require every further copy's checksum to equal the first's
(`mainVMD.cksum.Equal`); the first decoded copy becomes `mainVMD`. -/
def loadVMDGo : Option VMDData → List MpathContent → Except VMDError (Option VMDData)
  | main, [] => .ok main
  | main, .absent :: rest => loadVMDGo main rest
  | _, .corrupt :: _ => .error .loadErr
  | main, .vmd v :: rest =>
    if vmdValidate v then
      match main with
      | none => loadVMDGo (some v) rest
      | some m =>
        if m.cksum == v.cksum then loadVMDGo (some m) rest
        else .error .mismatchErr
    else .error .validationErr

/-- `LoadVMD` over the (ordered) mountpath contents: `.ok none` when no
copy is present. -/
def LoadVMD (l : List MpathContent) : Except VMDError (Option VMDData) :=
  loadVMDGo none l

/-- The decoded copies among the mountpath contents, in scan order. -/
def vmdsOf (l : List MpathContent) : List VMDData :=
  l.filterMap fun e =>
    match e with
    | .vmd v => some v
    | _ => none

/-- Whether an `Except` result is a success. -/
def isOkE {ε α : Type} : Except ε α → Bool
  | .ok _ => true
  | .error _ => false

/-- No mountpath holds a copy `jsp.Load` rejects. -/
def noCorrupt (l : List MpathContent) : Prop :=
  MpathContent.corrupt ∉ l

/-- Every decoded copy passes `Validate`. -/
def allValidVMD (l : List MpathContent) : Prop :=
  ∀ v ∈ vmdsOf l, vmdValidate v = true

/-- All decoded copies carry the same content checksum. -/
def cksumAgree (l : List MpathContent) : Prop :=
  ∀ v ∈ vmdsOf l, ∀ w ∈ vmdsOf l, v.cksum = w.cksum

/-- Result of `VMD.persist` as seen by its caller. -/
inductive PersistResult where
  | ok : PersistResult
  | err : PersistResult
  deriving DecidableEq

/-- `VMD.persist` from fs/vmd.go, as a function of the two counters
returned by `PersistOnMpaths` (that helper lives outside the provided
sources): with zero available mountpaths it only logs and returns `nil`;
with available mountpaths but zero successful writes it returns an error;
otherwise it returns `nil`. -/
def vmdPersist (cnt availMpaths : Nat) : PersistResult :=
  if availMpaths = 0 then .ok
  else if cnt = 0 then .err
  else .ok

/-! ## api/cluster.go and devtools/tutils/node.go: Join -/

/-- HTTP method of an API request. -/
inductive HTTPMethod where
  | get : HTTPMethod
  | post : HTTPMethod
  | put : HTTPMethod
  deriving DecidableEq

/-- Node descriptor as far as the Join claim needs it. -/
structure Snode where
  daemonID : String
  deriving DecidableEq

/-- Body of an API request. -/
inductive ReqBody where
  | empty : ReqBody
  | nodeDescriptor : Snode → ReqBody
  deriving DecidableEq

/-- The Go type the client decodes the HTTP response body into
(the `v` argument of `DoHTTPRequest`). -/
inductive RespDecodeType where
  | intoRebIDString : RespDecodeType
  | intoSmap : RespDecodeType
  deriving DecidableEq

/-- An API request as `api.DoHTTPRequest` receives it, together with the
type the response body is decoded into. -/
structure ApiReq where
  method : HTTPMethod
  body : ReqBody
  respDecode : RespDecodeType

/-- `api.JoinCluster`: `POST /v1/cluster/autoregister`-style request whose
body is the marshalled node descriptor and whose response body is decoded
into the `rebID string` out-parameter. -/
def JoinCluster (node : Snode) : ApiReq :=
  { method := .post, body := .nodeDescriptor node, respDecode := .intoRebIDString }

/-- `api.GetClusterMap`: GET with the Smap decoded from the response. -/
def GetClusterMapReq : ApiReq :=
  { method := .get, body := .empty, respDecode := .intoSmap }

/-- `maxNodeRetry` from devtools/tutils/node.go. -/
def maxNodeRetry : Nat := 10

/-- The retry loop of `tutils.WaitNodeAdded`: `fetch i` models the `i`-th
`api.GetClusterMap` call returning the Smap's member IDs (`none` = request
error, returned immediately); the loop returns the first Smap containing
`nodeID` and gives up once `i > maxNodeRetry`.  The fuel argument bounds
the loop and exceeds the retry limit, so it never runs out first. -/
def waitNodeAddedGo (fetch : Nat → Option (List String)) (nodeID : String) :
    Nat → Nat → Option (List String)
  | _, 0 => none
  | i, fuel + 1 =>
    match fetch i with
    | none => none
    | some smap =>
      if nodeID ∈ smap then some smap
      else if maxNodeRetry < i + 1 then none
      else waitNodeAddedGo fetch nodeID (i + 1) fuel

/-- `tutils.WaitNodeAdded` (the subsequent `WaitNodeReady` health polling
is not modelled; it does not affect which Smap is returned). -/
def WaitNodeAdded (fetch : Nat → Option (List String)) (nodeID : String) :
    Option (List String) :=
  waitNodeAddedGo fetch nodeID 0 (maxNodeRetry + 2)

/-! ## Discovery ("uncover")

Modelled from the spec: the implementation of `uncoverMeta` is not among
the provided sources (only its test driver in src/ais/multiproxy_test.go
is), so the protocol of spec §4.3 is modelled here.  Time is discretised
into polling rounds; the `startup_time` budget becomes a round budget. -/

/-- Modelled from the spec: one Discovery response
`{VoteInProgress: bool, Smap?, BMD?}`; the two maps are represented by
their advertised versions (`int64`, embedded as `Int`). -/
structure SmapVoteMsg where
  voteInProgress : Bool
  smapVer : Int
  bmdVer : Int
  deriving DecidableEq

/-- Modelled from the spec: a candidate's behaviour — what it answers at
each polling round, `none` being a transient request error. -/
def Candidate : Type := Nat → Option SmapVoteMsg

/-- A candidate answered round `r` without error and without
vote-in-progress. -/
def cleanAt (c : Candidate) (r : Nat) : Bool :=
  match c r with
  | some m => !m.voteInProgress
  | none => false

/-- A candidate reported vote-in-progress at round `r`. -/
def votingAt (c : Candidate) (r : Nat) : Bool :=
  match c r with
  | some m => m.voteInProgress
  | none => false

/-- Round `r` is clean: every candidate answered without error and without
vote-in-progress, so Discovery needs no further retry. -/
def cleanRound (cs : List Candidate) (r : Nat) : Bool :=
  cs.all fun c => cleanAt c r

/-- First clean round among the next `fuel` rounds starting at `r`. -/
def firstCleanAux (cs : List Candidate) : Nat → Nat → Option Nat
  | 0, _ => none
  | fuel + 1, r => if cleanRound cs r then some r else firstCleanAux cs fuel (r + 1)

/-- Modelled from the spec: first clean round within the budget — the round
at which Discovery stops retrying; `none` when the budget runs out first. -/
def firstClean (cs : List Candidate) (budget : Nat) : Option Nat :=
  firstCleanAux cs budget 0

/-- Number of rounds Discovery actually polls: up to and including the
first clean round, or the whole budget when no round is clean. -/
def polledRounds (cs : List Candidate) (budget : Nat) : Nat :=
  match firstClean cs budget with
  | some r => r + 1
  | none => budget

/-- The non-error, non-vote-in-progress responses of round `r`. -/
def okAt (cs : List Candidate) (r : Nat) : List SmapVoteMsg :=
  cs.filterMap fun c =>
    match c r with
    | some m => if m.voteInProgress then none else some m
    | none => none

/-- All non-error, non-vote-in-progress responses gathered over the polled
rounds (transient errors are retried within the budget). -/
def allOk (cs : List Candidate) (budget : Nat) : List SmapVoteMsg :=
  (List.range (polledRounds cs budget)).flatMap (okAt cs)

/-- Modelled from the spec: some candidate reported vote-in-progress for
the full duration of the run. -/
def fullVoting (cs : List Candidate) (budget : Nat) : Bool :=
  cs.any fun c => (List.range (polledRounds cs budget)).all (votingAt c)

/-- Version 0 is the valid "empty" state and is reported as `nil`
("none yet"); only a positive maximum version yields a map. -/
def versToOpt (v : Int) : Option Int :=
  if v ≤ 0 then none else some v

/-- Highest advertised Smap version among a list of responses (0 when the
list is empty — "none seen"). -/
def maxSmapVer (l : List SmapVoteMsg) : Int :=
  l.foldl (fun a m => max a m.smapVer) 0

/-- Highest advertised BMD version among a list of responses. -/
def maxBmdVer (l : List SmapVoteMsg) : Int :=
  l.foldl (fun a m => max a m.bmdVer) 0

/-- Modelled from the spec, §4.3 (`uncover`): poll all candidates each
round until a clean round or until the budget runs out; if some candidate
was voting for the full duration return `(nil, nil)`; otherwise pick,
independently, the highest Smap version and the highest BMD version among
the gathered non-error, non-vote-in-progress responses, version 0 meaning
"none". -/
def uncoverMeta (cs : List Candidate) (budget : Nat) : Option Int × Option Int :=
  if fullVoting cs budget then (none, none)
  else (versToOpt (maxSmapVer (allOk cs budget)), versToOpt (maxBmdVer (allOk cs budget)))

/-- A candidate that answers every round with the same message
(`discoverServerDefaultHandler`). -/
def constCand (m : SmapVoteMsg) : Candidate := fun _ => some m

/-- A candidate that always reports vote-in-progress
(`discoverServerVoteInProgressHandler`, which advertises versions
12345/67890 alongside the flag). -/
def constVotingCand : Candidate :=
  fun _ => some { voteInProgress := true, smapVer := 12345, bmdVer := 67890 }

/-- `discoverServerVoteOnceHandler`: vote-in-progress on the first call,
the advertised versions afterwards. -/
def voteOnceCand (sv bv : Int) : Candidate :=
  fun r => some { voteInProgress := r == 0, smapVer := sv, bmdVer := bv }

/-- The candidate set of the "vote once" test case: t1 votes once then
advertises (4, 5); t2 always advertises (1, 2). -/
def voteOnceCands : List Candidate :=
  [voteOnceCand 4 5, constCand { voteInProgress := false, smapVer := 1, bmdVer := 2 }]

/-! ## Theorems: key-path encoding (C10) -/

theorem getLast?_of_isSuffixOf_sepa {col : List Char}
    (h : sepa.isSuffixOf col = true) : col.getLast? = some '#' := by
  rw [List.isSuffixOf_iff_suffix] at h
  obtain ⟨t, ht⟩ := h
  have : col = (t ++ ['#']) ++ ['#'] := by
    rw [← ht]; simp [sepa]
  rw [this, List.getLast?_concat]

theorem indexOfSepa_append : ∀ (col key : List Char), indexOfSepa col = none →
    col.getLast? ≠ some '#' → indexOfSepa (col ++ '#' :: '#' :: key) = some col.length
  | [], _, _, _ => by simp [indexOfSepa]
  | [c], _, _, h2 => by
    have hc : c ≠ '#' := by simpa using h2
    simp [indexOfSepa, hc]
  | c :: d :: rest, key, h1, h2 => by
    have hcd : ¬(c = '#' ∧ d = '#') := by
      intro hcd
      simp [indexOfSepa, hcd] at h1
    have h1' : indexOfSepa (d :: rest) = none := by
      rw [indexOfSepa, if_neg hcd] at h1
      exact Option.map_eq_none'.mp h1
    have h2' : (d :: rest).getLast? ≠ some '#' := by
      simpa [List.getLast?_cons_cons] using h2
    have ih := indexOfSepa_append (d :: rest) key h1' h2'
    show indexOfSepa (c :: d :: (rest ++ '#' :: '#' :: key)) = _
    rw [indexOfSepa, if_neg hcd]
    have : d :: (rest ++ '#' :: '#' :: key) = (d :: rest) ++ '#' :: '#' :: key := rfl
    rw [this, ih]
    simp [List.length_cons]

/-- C10 (corrected): the round-trip `parsePath (makePath collection key) =
(collection, key)` holds for every key once the collection neither contains
the separator `"##"` nor ends with the character `'#'`. -/
theorem makePath_parsePath_roundTrip (col key : List Char)
    (h1 : indexOfSepa col = none) (h2 : col.getLast? ≠ some '#') :
    parsePath (makePath col key) = (col, key) := by
  have hsuf : sepa.isSuffixOf col = false := by
    cases hs : sepa.isSuffixOf col
    · rfl
    · exact absurd (getLast?_of_isSuffixOf_sepa hs) h2
  have hpath : makePath col key = col ++ '#' :: '#' :: key := by
    unfold makePath
    rw [hsuf]
    simp [sepa]
  rw [hpath]
  unfold parsePath
  rw [indexOfSepa_append col key h1 h2]
  have htake : (col ++ '#' :: '#' :: key).take col.length = col := List.take_left col _
  have hdrop : (col ++ '#' :: '#' :: key).drop (col.length + 2) = key := by
    have he : col ++ '#' :: '#' :: key = (col ++ ['#', '#']) ++ key := by simp
    have hl : col.length + 2 = (col ++ ['#', '#']).length := by simp
    rw [he, hl, List.drop_left]
  show ((col ++ '#' :: '#' :: key).take col.length,
    (col ++ '#' :: '#' :: key).drop (col.length + 2)) = (col, key)
  rw [htake, hdrop]

/-- C10 counterexample: for `collection = "a#"` (which does not contain the
separator `"##"`) and `key = "b"`, `makePath` yields `"a###b"` whose first
`"##"` occurrence starts inside the collection, so `parsePath` returns
`("a", "#b")`, not `("a#", "b")` — the round-trip claimed for every
separator-free collection fails. -/
theorem makePath_parsePath_cex :
    indexOfSepa ['a', '#'] = none ∧
    parsePath (makePath ['a', '#'] ['b']) = (['a'], ['#', 'b']) ∧
    parsePath (makePath ['a', '#'] ['b']) ≠ (['a', '#'], ['b']) := by
  decide

/-- C10 witness: the amended round-trip at `collection = "a"`, `key = "b"`. -/
theorem makePath_parsePath_roundTrip_w :
    parsePath (makePath ['a'] ['b']) = (['a'], ['b']) :=
  makePath_parsePath_roundTrip ['a'] ['b'] (by decide) (by decide)

/-! ## Theorems: parseRange (C9) -/

theorem splitOnChar_ne_nil (sep : Char) : ∀ s : List Char, splitOnChar sep s ≠ []
  | [] => by simp [splitOnChar]
  | c :: rest => by
    have h := splitOnChar_ne_nil sep rest
    cases hs : splitOnChar sep rest with
    | nil => exact absurd hs h
    | cons g gs =>
      rw [splitOnChar, hs]
      by_cases hc : c = sep <;> simp [hc]

theorem splitOnChar_of_not_mem {s : List Char} (h : ':' ∉ s) :
    splitOnChar ':' s = [s] := by
  induction s with
  | nil => rfl
  | cons c rest ih =>
    have hc : c ≠ ':' := fun hc => h (hc ▸ List.mem_cons_self c rest)
    have hrest : ':' ∉ rest := fun hr => h (List.mem_cons_of_mem c hr)
    rw [splitOnChar, ih hrest]
    simp [hc]

theorem splitOnChar_cons_sep (b : List Char) :
    splitOnChar ':' (':' :: b) = [] :: splitOnChar ':' b := by
  have h := splitOnChar_ne_nil ':' b
  cases hs : splitOnChar ':' b with
  | nil => exact absurd hs h
  | cons g gs => rw [splitOnChar, hs]; simp

theorem splitOnChar_append_sep {a : List Char} (b : List Char) (h : ':' ∉ a) :
    splitOnChar ':' (a ++ ':' :: b) = a :: splitOnChar ':' b := by
  induction a with
  | nil => simpa using splitOnChar_cons_sep b
  | cons c rest ih =>
    have hc : c ≠ ':' := fun hc => h (hc ▸ List.mem_cons_self c rest)
    have hrest : ':' ∉ rest := fun hr => h (List.mem_cons_of_mem c hr)
    show splitOnChar ':' (c :: (rest ++ ':' :: b)) = _
    rw [splitOnChar, ih hrest]
    simp [hc]

theorem splitOnChar_mem_length {s : List Char} (h : ':' ∈ s) :
    2 ≤ (splitOnChar ':' s).length := by
  induction s with
  | nil => cases h
  | cons c rest ih =>
    cases hs : splitOnChar ':' rest with
    | nil => exact absurd hs (splitOnChar_ne_nil ':' rest)
    | cons g gs =>
      rw [splitOnChar, hs]
      show 2 ≤ (if c = ':' then [] :: g :: gs else (c :: g) :: gs).length
      rcases List.mem_cons.mp h with hc | hr
      · rw [if_pos hc.symm]
        simp [Nat.succ_le_succ, Nat.le_add_left]
      · have h2 := ih hr
        rw [hs] at h2
        by_cases hc2 : c = ':'
        · rw [if_pos hc2]
          simp [Nat.succ_le_succ, Nat.le_add_left]
        · rw [if_neg hc2]
          simpa using h2

theorem parseRange_mem_ne_indexError {s : List Char} (hnil : s ≠ [])
    (hmem : ':' ∈ s) : parseRange s ≠ RangeResult.indexError := by
  rw [parseRange, if_neg hnil]
  rcases hs : splitOnChar ':' s with _ | ⟨r0, rest⟩
  · exact absurd hs (splitOnChar_ne_nil ':' s)
  · have hlen := splitOnChar_mem_length hmem
    rw [hs] at hlen
    rcases rest with _ | ⟨r1, rest'⟩
    · simp at hlen
    · rcases hmin : (if r0 = [] then some 0 else parseInt64 r0) with _ | mn
      · simp [hmin]
      · by_cases hr1 : r1 = []
        · simp [hmin, hr1]
        · rcases hmx : parseInt64 r1 with _ | mx <;> simp [hmin, hr1, hmx]

/-- C9 (corrected): `parseRange` hits the out-of-range index access exactly
on the strings that are non-empty, contain no `':'`, and parse successfully
as an int64 (a colon-free string that fails `ParseInt` returns that parse
error before `ranges[1]` is touched); the empty string yields `(0, 0)` and
an empty min or max component parses as 0. -/
theorem parseRange_amended :
    (∀ s : List Char, parseRange s = RangeResult.indexError ↔
      (s ≠ [] ∧ ':' ∉ s ∧ (parseInt64 s).isSome = true))
    ∧ parseRange [] = RangeResult.ok 0 0
    ∧ parseRange [':'] = RangeResult.ok 0 0
    ∧ (∀ (b : List Char) (mx : Int), ':' ∉ b → parseInt64 b = some mx →
        parseRange (':' :: b) = RangeResult.ok 0 mx)
    ∧ (∀ (a : List Char) (mn : Int), ':' ∉ a → parseInt64 a = some mn →
        parseRange (a ++ [':']) = RangeResult.ok mn 0) := by
  refine ⟨?_, by decide, by decide, ?_, ?_⟩
  · intro s
    by_cases hnil : s = []
    · subst hnil; simp [parseRange]
    · by_cases hmem : ':' ∈ s
      · constructor
        · intro hpr
          exact absurd hpr (parseRange_mem_ne_indexError hnil hmem)
        · rintro ⟨-, hnm, -⟩
          exact absurd hmem hnm
      · rw [parseRange, if_neg hnil, splitOnChar_of_not_mem hmem]
        rcases hp : parseInt64 s with _ | mn
        · simp [hp, hnil, hmem]
        · simp [hp, hnil, hmem]
  · intro b mx hb hpb
    have hbne : b ≠ [] := by
      rintro rfl
      rw [show parseInt64 [] = (none : Option Int) from rfl] at hpb
      cases hpb
    rw [parseRange, if_neg (by simp : ¬(':' :: b : List Char) = []),
      splitOnChar_cons_sep, splitOnChar_of_not_mem hb]
    simp [hbne, hpb]
  · intro a mn ha hpa
    have hane : a ≠ [] := by
      rintro rfl
      rw [show parseInt64 [] = (none : Option Int) from rfl] at hpa
      cases hpa
    rw [parseRange, if_neg (by simp : ¬(a ++ [':'] : List Char) = []),
      show (a ++ [':'] : List Char) = a ++ ':' :: [] from rfl,
      splitOnChar_append_sep [] ha]
    simp [hane, hpa, splitOnChar]

/-- C9 counterexample: `"abc"` is non-empty and contains no `':'`, yet
`parseRange` terminates without any index error — `ParseInt` fails on
`"abc"` and the function returns that error before touching `ranges[1]` —
so totality does not hold *exactly* on the empty-or-contains-colon set. -/
theorem parseRange_cex :
    parseRange ['a', 'b', 'c'] = RangeResult.parseErr ∧
    ¬(['a', 'b', 'c'] = ([] : List Char) ∨ ':' ∈ ['a', 'b', 'c']) := by
  decide

/-- C9 witness: the amended characterization at concrete inputs — `"5"`
panics, `":7"` parses the empty min as 0, `"5:"` the empty max as 0. -/
theorem parseRange_amended_w :
    parseRange ['5'] = RangeResult.indexError ∧
    parseRange [':', '7'] = RangeResult.ok 0 7 ∧
    parseRange ['5', ':'] = RangeResult.ok 5 0 := by
  refine ⟨?_, ?_, ?_⟩
  · exact (parseRange_amended.1 ['5']).mpr ⟨by decide, by decide, by decide⟩
  · exact parseRange_amended.2.2.2.1 ['7'] 7 (by decide) (by decide)
  · exact parseRange_amended.2.2.2.2 ['5'] 5 (by decide) (by decide)

/-! ## Theorems: VMD load and persist (C3, C5) -/

theorem vmdsOf_absent (l : List MpathContent) :
    vmdsOf (MpathContent.absent :: l) = vmdsOf l := rfl

theorem vmdsOf_vmd (v : VMDData) (l : List MpathContent) :
    vmdsOf (MpathContent.vmd v :: l) = v :: vmdsOf l := rfl

theorem noCorrupt_cons {e : MpathContent} {l : List MpathContent}
    (h : noCorrupt (e :: l)) : noCorrupt l :=
  fun hm => h (List.mem_cons_of_mem e hm)

theorem noCorrupt_cons_of {e : MpathContent} {l : List MpathContent}
    (he : e ≠ MpathContent.corrupt) (h : noCorrupt l) : noCorrupt (e :: l) := by
  intro hm
  rcases List.mem_cons.mp hm with h1 | h1
  · exact he h1.symm
  · exact h h1

theorem loadVMDGo_some_ok (m : VMDData) : ∀ l : List MpathContent,
    noCorrupt l → allValidVMD l → (∀ v ∈ vmdsOf l, v.cksum = m.cksum) →
    loadVMDGo (some m) l = .ok (some m)
  | [], _, _, _ => rfl
  | .absent :: rest, hnc, hav, hck =>
    loadVMDGo_some_ok m rest (noCorrupt_cons hnc) hav hck
  | .corrupt :: _, hnc, _, _ => absurd (List.mem_cons_self _ _) hnc
  | .vmd v :: rest, hnc, hav, hck => by
    have hv : vmdValidate v = true := hav v (by simp [vmdsOf_vmd])
    have hc : v.cksum = m.cksum := hck v (by simp [vmdsOf_vmd])
    have hav' : allValidVMD rest := fun w hw => hav w (by simp [vmdsOf_vmd, hw])
    have hck' : ∀ w ∈ vmdsOf rest, w.cksum = m.cksum :=
      fun w hw => hck w (by simp [vmdsOf_vmd, hw])
    rw [loadVMDGo, if_pos hv, if_pos (by simpa using hc.symm)]
    exact loadVMDGo_some_ok m rest (noCorrupt_cons hnc) hav' hck'

theorem loadVMDGo_none_ok : ∀ l : List MpathContent,
    noCorrupt l → allValidVMD l → cksumAgree l →
    loadVMDGo none l = .ok (vmdsOf l).head?
  | [], _, _, _ => rfl
  | .absent :: rest, hnc, hav, hca =>
    loadVMDGo_none_ok rest (noCorrupt_cons hnc) hav hca
  | .corrupt :: _, hnc, _, _ => absurd (List.mem_cons_self _ _) hnc
  | .vmd v :: rest, hnc, hav, hca => by
    have hv : vmdValidate v = true := hav v (by simp [vmdsOf_vmd])
    have hck' : ∀ w ∈ vmdsOf rest, w.cksum = v.cksum := fun w hw =>
      hca w (by simp [vmdsOf_vmd, hw]) v (by simp [vmdsOf_vmd])
    have hav' : allValidVMD rest := fun w hw => hav w (by simp [vmdsOf_vmd, hw])
    rw [loadVMDGo, if_pos hv]
    rw [loadVMDGo_some_ok v rest (noCorrupt_cons hnc) hav' hck']
    rfl

theorem loadVMDGo_some_inv (m : VMDData) : ∀ l : List MpathContent,
    isOkE (loadVMDGo (some m) l) = true →
    noCorrupt l ∧ allValidVMD l ∧ ∀ v ∈ vmdsOf l, v.cksum = m.cksum
  | [], _ => by
    refine ⟨List.not_mem_nil _, ?_, ?_⟩ <;> intro v hv <;> cases hv
  | .absent :: rest, h => by
    obtain ⟨hnc, hav, hck⟩ := loadVMDGo_some_inv m rest h
    exact ⟨noCorrupt_cons_of (by simp) hnc, hav, hck⟩
  | .corrupt :: _, h => by cases h
  | .vmd v :: rest, h => by
    by_cases hv : vmdValidate v = true
    · rw [loadVMDGo, if_pos hv] at h
      by_cases hc : (m.cksum == v.cksum) = true
      · rw [if_pos hc] at h
        obtain ⟨hnc, hav, hck⟩ := loadVMDGo_some_inv m rest h
        refine ⟨noCorrupt_cons_of (by simp) hnc, ?_, ?_⟩
        · intro w hw
          rcases List.mem_cons.mp (by simpa [vmdsOf_vmd] using hw) with hw' | hw'
          · exact hw' ▸ hv
          · exact hav w hw'
        · intro w hw
          rcases List.mem_cons.mp (by simpa [vmdsOf_vmd] using hw) with hw' | hw'
          · subst hw'
            exact (show m.cksum = w.cksum by simpa using hc).symm
          · exact hck w hw'
      · rw [if_neg hc] at h; cases h
    · rw [loadVMDGo, if_neg hv] at h; cases h

theorem loadVMDGo_none_inv : ∀ l : List MpathContent,
    isOkE (loadVMDGo none l) = true →
    noCorrupt l ∧ allValidVMD l ∧ cksumAgree l
  | [], _ => by
    refine ⟨List.not_mem_nil _, ?_, ?_⟩
    · intro v hv; cases hv
    · intro v hv; cases hv
  | .absent :: rest, h => by
    obtain ⟨hnc, hav, hca⟩ := loadVMDGo_none_inv rest h
    exact ⟨noCorrupt_cons_of (by simp) hnc, hav, hca⟩
  | .corrupt :: _, h => by cases h
  | .vmd v :: rest, h => by
    by_cases hv : vmdValidate v = true
    · rw [loadVMDGo, if_pos hv] at h
      obtain ⟨hnc, hav, hck⟩ := loadVMDGo_some_inv v rest h
      have hmem : ∀ w ∈ vmdsOf (MpathContent.vmd v :: rest), w.cksum = v.cksum := by
        intro w hw
        rcases List.mem_cons.mp (by simpa [vmdsOf_vmd] using hw) with hw' | hw'
        · rw [hw']
        · exact hck w hw'
      refine ⟨noCorrupt_cons_of (by simp) hnc, ?_, ?_⟩
      · intro w hw
        rcases List.mem_cons.mp (by simpa [vmdsOf_vmd] using hw) with hw' | hw'
        · exact hw' ▸ hv
        · exact hav w hw'
      · intro w hw w' hw'
        rw [hmem w hw, hmem w' hw']
    · rw [loadVMDGo, if_neg hv] at h; cases h

/-- C3 (corrected): `LoadVMD` succeeds exactly when no present copy fails
to load, every decoded copy validates, and all decoded copies carry the
same checksum; on success it returns the *first* decoded copy in scan
order (`nil` when no copy is present).  It never compares versions, and it
fails on two individually valid copies whose checksums diverge. -/
theorem LoadVMD_amended (l : List MpathContent) :
    (isOkE (LoadVMD l) = true ↔ (noCorrupt l ∧ allValidVMD l ∧ cksumAgree l))
    ∧ ((noCorrupt l ∧ allValidVMD l ∧ cksumAgree l) →
        LoadVMD l = .ok (vmdsOf l).head?) := by
  constructor
  · constructor
    · exact fun h => loadVMDGo_none_inv l h
    · rintro ⟨hnc, hav, hca⟩
      rw [LoadVMD, loadVMDGo_none_ok l hnc hav hca]
      rfl
  · rintro ⟨hnc, hav, hca⟩
    exact loadVMDGo_none_ok l hnc hav hca

/-- C3 counterexample: two mountpaths each hold a copy that loads and
validates on its own, but the checksums diverge; `LoadVMD` fails with the
mismatch error instead of returning a highest-version valid copy — the
load does not "fail only when a copy is present but invalid". -/
theorem LoadVMD_cex :
    LoadVMD [MpathContent.vmd ⟨1, "a", 10⟩, MpathContent.vmd ⟨1, "a", 20⟩]
      = Except.error VMDError.mismatchErr
    ∧ vmdValidate ⟨1, "a", 10⟩ = true
    ∧ vmdValidate ⟨1, "a", 20⟩ = true :=
  ⟨rfl, rfl, rfl⟩

/-- C3 witness: the amended success case at a concrete copy set. -/
theorem LoadVMD_amended_w :
    LoadVMD [MpathContent.absent, MpathContent.vmd ⟨1, "a", 7⟩,
      MpathContent.vmd ⟨1, "b", 7⟩] = Except.ok (some ⟨1, "a", 7⟩) :=
  (LoadVMD_amended _).2
    ⟨by unfold noCorrupt; decide, by unfold allValidVMD vmdsOf; decide,
      by unfold cksumAgree vmdsOf; decide⟩

/-- C5 counterexample: with zero available mountpaths — so certainly no
mountpath accepted the write — `persist` only logs and returns `nil`;
no error reaches the caller, contrary to the claim. -/
theorem vmdPersist_cex : vmdPersist 0 0 = PersistResult.ok := rfl

/-- C5 (corrected): `persist` surfaces an error exactly when at least one
mountpath was available and none accepted the write; with zero available
mountpaths it logs and reports success. -/
theorem vmdPersist_amended (cnt availMpaths : Nat) :
    vmdPersist cnt availMpaths = PersistResult.err ↔
      (availMpaths ≠ 0 ∧ cnt = 0) := by
  unfold vmdPersist
  by_cases ha : availMpaths = 0 <;> by_cases hc : cnt = 0 <;> simp [ha, hc]

/-! ## Theorems: Discovery / uncover (C1, C2, C6, C7, C8) -/

theorem cleanRound_map_const : ∀ (msgs : List SmapVoteMsg) (r : Nat),
    cleanRound (msgs.map constCand) r = msgs.all (fun m => !m.voteInProgress)
  | [], _ => rfl
  | m :: ms, r => by
    show (cleanAt (constCand m) r && cleanRound (ms.map constCand) r) = _
    rw [cleanRound_map_const ms r]
    rfl

theorem filterMap_ok_self : ∀ msgs : List SmapVoteMsg,
    (∀ m ∈ msgs, m.voteInProgress = false) →
    msgs.filterMap (fun m => if m.voteInProgress then none else some m) = msgs
  | [], _ => rfl
  | m :: ms, h => by
    have hm : m.voteInProgress = false := h m (List.mem_cons_self _ _)
    rw [List.filterMap_cons]
    simp only [hm, Bool.false_eq_true, if_false]
    rw [filterMap_ok_self ms (fun x hx => h x (List.mem_cons_of_mem _ hx))]

theorem uncover_const (msgs : List SmapVoteMsg) (budget : Nat) (hb : budget ≠ 0)
    (hall : ∀ m ∈ msgs, m.voteInProgress = false) :
    uncoverMeta (msgs.map constCand) budget
      = (versToOpt (maxSmapVer msgs), versToOpt (maxBmdVer msgs)) := by
  obtain ⟨b, rfl⟩ : ∃ b, budget = b + 1 := ⟨budget - 1, by omega⟩
  have hclean : cleanRound (msgs.map constCand) 0 = true := by
    rw [cleanRound_map_const, List.all_eq_true]
    intro m hm
    simp [hall m hm]
  have hfc : firstClean (msgs.map constCand) (b + 1) = some 0 := by
    show firstCleanAux _ (b + 1) 0 = some 0
    simp only [firstCleanAux, hclean, if_true]
  have hpolled : polledRounds (msgs.map constCand) (b + 1) = 1 := by
    rw [polledRounds, hfc]
  have hallok : allOk (msgs.map constCand) (b + 1) = msgs := by
    rw [allOk, hpolled]
    show okAt (msgs.map constCand) 0 ++ [] = msgs
    rw [List.append_nil, okAt, List.filterMap_map]
    exact filterMap_ok_self msgs hall
  have hfv : fullVoting (msgs.map constCand) (b + 1) = false := by
    rw [fullVoting, hpolled]
    rw [List.any_eq_false]
    intro c hc
    obtain ⟨m, hm, rfl⟩ := List.mem_map.mp hc
    have : votingAt (constCand m) 0 = false := by
      simp [votingAt, constCand, hall m hm]
    simp [this]
  rw [uncoverMeta, hfv, hallok]
  rfl

/-- C1: when every candidate responds without error and without
vote-in-progress, Discovery returns the highest advertised Smap version
and, independently, the highest advertised BMD version. -/
theorem uncoverMeta_max (msgs : List SmapVoteMsg) (budget : Nat)
    (hb : budget ≠ 0) (hall : ∀ m ∈ msgs, m.voteInProgress = false)
    (hs : 0 < maxSmapVer msgs) (hbd : 0 < maxBmdVer msgs) :
    uncoverMeta (msgs.map constCand) budget
      = (some (maxSmapVer msgs), some (maxBmdVer msgs)) := by
  rw [uncover_const msgs budget hb hall, versToOpt, versToOpt,
    if_neg (by omega), if_neg (by omega)]

/-- C1 witness: candidates advertising (Smap 1, BMD 2), (Smap 4, BMD 5),
(Smap 1, BMD 2) yield Smap version 4 and BMD version 5. -/
theorem uncoverMeta_max_w :
    uncoverMeta ([(⟨false, 1, 2⟩ : SmapVoteMsg), ⟨false, 4, 5⟩,
      ⟨false, 1, 2⟩].map constCand) 1 = (some 4, some 5) := by
  have h := uncoverMeta_max [(⟨false, 1, 2⟩ : SmapVoteMsg), ⟨false, 4, 5⟩,
    ⟨false, 1, 2⟩] 1 (by decide) (by decide) (by decide) (by decide)
  rw [show maxSmapVer [(⟨false, 1, 2⟩ : SmapVoteMsg), ⟨false, 4, 5⟩,
      ⟨false, 1, 2⟩] = 4 from by decide,
    show maxBmdVer [(⟨false, 1, 2⟩ : SmapVoteMsg), ⟨false, 4, 5⟩,
      ⟨false, 1, 2⟩] = 5 from by decide] at h
  exact h

/-- C2: if some candidate reports vote-in-progress at every round,
Discovery returns `(nil, nil)` regardless of what the other candidates
agree on. -/
theorem uncoverMeta_votingFullDuration (cs : List Candidate) (budget : Nat)
    (c : Candidate) (hc : c ∈ cs) (hv : ∀ r, votingAt c r = true) :
    uncoverMeta cs budget = (none, none) := by
  have hca : ∀ r, cleanAt c r = false := by
    intro r
    have hvr := hv r
    unfold votingAt at hvr
    unfold cleanAt
    cases hcr : c r with
    | none => rfl
    | some m =>
      rw [hcr] at hvr
      have hm : m.voteInProgress = true := hvr
      show (!m.voteInProgress) = false
      simp [hm]
  have hclean : ∀ r, cleanRound cs r = false := by
    intro r
    refine Bool.eq_false_iff.mpr fun hall => ?_
    have := List.all_eq_true.mp hall c hc
    rw [hca r] at this
    cases this
  have hfca : ∀ fuel r, firstCleanAux cs fuel r = none := by
    intro fuel
    induction fuel with
    | zero => intro r; rfl
    | succ n ih =>
      intro r
      simp only [firstCleanAux, hclean r, Bool.false_eq_true, if_false]
      exact ih (r + 1)
  have hfv : fullVoting cs budget = true := by
    rw [fullVoting, List.any_eq_true]
    exact ⟨c, hc, List.all_eq_true.mpr fun r _ => hv r⟩
  rw [uncoverMeta, hfv]
  rfl

/-- C2 witness: one candidate voting for the whole run while the other
advertises (Smap 4, BMD 5) still yields `(nil, nil)`. -/
theorem uncoverMeta_votingFullDuration_w :
    uncoverMeta [constVotingCand, constCand ⟨false, 4, 5⟩] 3 = (none, none) :=
  uncoverMeta_votingFullDuration _ 3 constVotingCand
    (List.mem_cons_self _ _) (fun _ => rfl)

/-- C6: a map advertised with version 0 is "none", independently per map:
when the maximum Smap version is 0 the Smap comes back `nil` while a BMD
with positive maximum version is still returned, and symmetrically when
the maximum BMD version is 0 the BMD comes back `nil` while an Smap with
positive maximum version is still returned. -/
theorem uncoverMeta_zeroVersion (msgs : List SmapVoteMsg) (budget : Nat)
    (hb : budget ≠ 0) (hall : ∀ m ∈ msgs, m.voteInProgress = false) :
    (maxSmapVer msgs ≤ 0 → 0 < maxBmdVer msgs →
      uncoverMeta (msgs.map constCand) budget = (none, some (maxBmdVer msgs)))
    ∧ (maxBmdVer msgs ≤ 0 → 0 < maxSmapVer msgs →
      uncoverMeta (msgs.map constCand) budget = (some (maxSmapVer msgs), none)) := by
  constructor
  · intro hs hbd
    rw [uncover_const msgs budget hb hall, versToOpt, versToOpt,
      if_pos hs, if_neg (by omega)]
  · intro hbd hs
    rw [uncover_const msgs budget hb hall, versToOpt, versToOpt,
      if_neg (by omega), if_pos hbd]

/-- C6 witness: candidates advertising (Smap 0, BMD 3) and (Smap 0, BMD 4)
yield `Smap = nil` and BMD version 4, and candidates advertising
(Smap 1, BMD 0) twice yield Smap version 1 and `BMD = nil`. -/
theorem uncoverMeta_zeroVersion_w :
    uncoverMeta ([(⟨false, 0, 3⟩ : SmapVoteMsg), ⟨false, 0, 4⟩].map constCand) 1
      = (none, some 4)
    ∧ uncoverMeta ([(⟨false, 1, 0⟩ : SmapVoteMsg), ⟨false, 1, 0⟩].map constCand) 1
      = (some 1, none) := by
  constructor
  · have h := (uncoverMeta_zeroVersion [(⟨false, 0, 3⟩ : SmapVoteMsg),
      ⟨false, 0, 4⟩] 1 (by decide) (by decide)).1 (by decide) (by decide)
    rw [show maxBmdVer [(⟨false, 0, 3⟩ : SmapVoteMsg), ⟨false, 0, 4⟩] = 4
      from by decide] at h
    exact h
  · have h := (uncoverMeta_zeroVersion [(⟨false, 1, 0⟩ : SmapVoteMsg),
      ⟨false, 1, 0⟩] 1 (by decide) (by decide)).2 (by decide) (by decide)
    rw [show maxSmapVer [(⟨false, 1, 0⟩ : SmapVoteMsg), ⟨false, 1, 0⟩] = 1
      from by decide] at h
    exact h

/-- C7: Discovery over the empty candidate set returns `(nil, nil)` for
every budget, and it stops at the very first round (no retry rounds, no
requests — there are no candidates to ask). -/
theorem uncoverMeta_empty (budget : Nat) :
    uncoverMeta [] budget = (none, none)
    ∧ (budget ≠ 0 → firstClean [] budget = some 0) := by
  constructor
  · have hfv : fullVoting [] budget = false := rfl
    rw [uncoverMeta, hfv]
    have hok : allOk [] budget = [] := by
      rw [allOk]
      simp [okAt]
    rw [if_neg (by simp), hok]
    rfl
  · intro hb
    obtain ⟨b, rfl⟩ : ∃ b, budget = b + 1 := ⟨budget - 1, by omega⟩
    show firstCleanAux [] (b + 1) 0 = some 0
    simp only [firstCleanAux, cleanRound, List.all_nil, if_true]

/-- C7 witness: the empty candidate set at the minimal budget. -/
theorem uncoverMeta_empty_w :
    uncoverMeta [] 1 = (none, none) ∧ firstClean [] 1 = some 0 :=
  ⟨(uncoverMeta_empty 1).1, (uncoverMeta_empty 1).2 (by decide)⟩

/-- C8: in the "vote once" pattern — t1 voting on the first poll, then
advertising (4, 5); t2 always advertising (1, 2) — any budget of at least
two rounds makes Discovery stop at round 1 (before the timeout) with the
agreed maxima Smap 4 and BMD 5. -/
theorem uncoverMeta_voteOnce (budget : Nat) (h : 2 ≤ budget) :
    uncoverMeta voteOnceCands budget = (some 4, some 5)
    ∧ firstClean voteOnceCands budget = some 1 := by
  obtain ⟨b, rfl⟩ : ∃ b, budget = b + 2 := ⟨budget - 2, by omega⟩
  have h0 : cleanRound voteOnceCands 0 = false := rfl
  have h1 : cleanRound voteOnceCands 1 = true := rfl
  have hfc : firstClean voteOnceCands (b + 2) = some 1 := by
    show firstCleanAux voteOnceCands (b + 2) 0 = some 1
    simp only [firstCleanAux, h0, h1, Bool.false_eq_true, if_false, if_true]
  have hpolled : polledRounds voteOnceCands (b + 2) = 2 := by
    rw [polledRounds, hfc]
  refine ⟨?_, hfc⟩
  have hfv : fullVoting voteOnceCands (b + 2) = false := by
    rw [fullVoting, hpolled]
    rfl
  have hallok : allOk voteOnceCands (b + 2)
      = [⟨false, 1, 2⟩, ⟨false, 4, 5⟩, ⟨false, 1, 2⟩] := by
    rw [allOk, hpolled]
    rfl
  rw [uncoverMeta, hfv, hallok]
  rfl

/-- C8 witness: the "vote once" pattern at a budget of 30 rounds. -/
theorem uncoverMeta_voteOnce_w :
    uncoverMeta voteOnceCands 30 = (some 4, some 5) :=
  (uncoverMeta_voteOnce 30 (by decide)).1

/-! ## Theorems: Join (C4) -/

theorem waitNodeAddedGo_mem (fetch : Nat → Option (List String))
    (nodeID : String) : ∀ (fuel i : Nat) (smap : List String),
    waitNodeAddedGo fetch nodeID i fuel = some smap → nodeID ∈ smap := by
  intro fuel
  induction fuel with
  | zero => intro i smap h; cases h
  | succ n ih =>
    intro i smap h
    rw [waitNodeAddedGo] at h
    cases hf : fetch i with
    | none => rw [hf] at h; cases h
    | some s =>
      rw [hf] at h
      have h' : (if nodeID ∈ s then some s
          else if maxNodeRetry < i + 1 then none
          else waitNodeAddedGo fetch nodeID (i + 1) n) = some smap := h
      by_cases hmem : nodeID ∈ s
      · rw [if_pos hmem] at h'
        cases h'
        exact hmem
      · rw [if_neg hmem] at h'
        by_cases hlim : maxNodeRetry < i + 1
        · rw [if_pos hlim] at h'; cases h'
        · rw [if_neg hlim] at h'
          exact ih (i + 1) smap h'

/-- C4 (corrected): the Join request is indeed a POST carrying the node
descriptor, but the client decodes the response body as the rebalance-ID
string, not as an Smap; the joining node appears in an Smap only through
subsequent cluster-map polling (`WaitNodeAdded`), and every Smap that
polling returns does contain the node. -/
theorem joinCluster_amended (node : Snode) (fetch : Nat → Option (List String))
    (nodeID : String) (smap : List String) :
    (JoinCluster node).method = HTTPMethod.post
    ∧ (JoinCluster node).body = ReqBody.nodeDescriptor node
    ∧ (JoinCluster node).respDecode = RespDecodeType.intoRebIDString
    ∧ (WaitNodeAdded fetch nodeID = some smap → nodeID ∈ smap) :=
  ⟨rfl, rfl, rfl, fun h => waitNodeAddedGo_mem fetch nodeID _ 0 smap h⟩

/-- C4 counterexample: the response body of `api.JoinCluster` is decoded
into the `rebID string` out-parameter — it is not the new Smap. -/
theorem joinCluster_cex :
    (JoinCluster ⟨"n1"⟩).respDecode ≠ RespDecodeType.intoSmap := by
  decide

/-- C4 witness: the amended statement at a concrete node and a cluster-map
poll that immediately shows the node. -/
theorem joinCluster_amended_w :
    (JoinCluster ⟨"n1"⟩).method = HTTPMethod.post
    ∧ (JoinCluster ⟨"n1"⟩).body = ReqBody.nodeDescriptor ⟨"n1"⟩
    ∧ (JoinCluster ⟨"n1"⟩).respDecode = RespDecodeType.intoRebIDString
    ∧ "n1" ∈ ["n1"] :=
  have h := joinCluster_amended ⟨"n1"⟩ (fun _ => some ["n1"]) "n1" ["n1"]
  ⟨h.1, h.2.1, h.2.2.1, h.2.2.2 (by decide)⟩

end AIStore
